import Mathlib

/-
Verification of the cxxd line-colorizing engine (cxxd.py).

The program post-processes `xxd` output: it splits each dump line into
address / hex-field / text-field columns, tokenizes the hex field with the
capturing regex "([A-Fa-f0-9]{2})" (or "([01]{8})" in binary mode), wraps each
byte token in a 256-color terminal escape chosen by a palette, and reassembles
the line.  Strings are embedded as `List Char`; a raised Python exception is
embedded as `none` (or `Except.error`); `re.split` with a single capturing
group is embedded as a left-to-right scan emitting alternating separator and
token fragments.
-/

namespace Cxxd

/-- The ASCII escape character, written "\033" in the source. -/
def esc : Char := Char.ofNat 27

/-- Constant `XXDParser.null_color = 59`. -/
def null_color : Nat := 59

/-- Constant `XXDParser.address_separator = ": "`. -/
def address_separator : List Char := [':', ' ']

/-- Constant `XXDParser.hex_separator = "  "` (two spaces). -/
def hex_separator : List Char := [' ', ' ']

/-- Constant `XXDParser.pixel_char = "◼"` (black medium square). -/
def pixel_char : Char := Char.ofNat 0x25FC

/-- The elision marker line `"*\n"` passed through verbatim by `format_line`. -/
def elision : List Char := ['*', '\n']

/-- Membership in the regex character class `[A-Fa-f0-9]` of `regex_hex`. -/
def isHexDigit (c : Char) : Bool :=
  (65 ≤ c.toNat && c.toNat ≤ 70) || (97 ≤ c.toNat && c.toNat ≤ 102) ||
    (48 ≤ c.toNat && c.toNat ≤ 57)

/-- Membership in the regex character class `[01]` of `regex_bin`. -/
def isBinDigit (c : Char) : Bool :=
  c.toNat = 48 || c.toNat = 49

/-- ASCII whitespace as recognized by Python's `str.strip` and `int`:
space, tab, newline, carriage return, vertical tab, form feed. -/
def isPyWs (c : Char) : Bool :=
  c.toNat = 32 || c.toNat = 9 || c.toNat = 10 || c.toNat = 13 ||
    c.toNat = 11 || c.toNat = 12

/-- Python `str.strip()`: drop leading and trailing whitespace. -/
def pyStrip (s : List Char) : List Char :=
  ((s.dropWhile isPyWs).reverse.dropWhile isPyWs).reverse

/-- The numeric value Python assigns to a digit character (0-9, a-z, A-Z),
`none` for any other character. -/
def digitVal (c : Char) : Option Nat :=
  if 48 ≤ c.toNat ∧ c.toNat ≤ 57 then some (c.toNat - 48)
  else if 97 ≤ c.toNat ∧ c.toNat ≤ 122 then some (c.toNat - 87)
  else if 65 ≤ c.toNat ∧ c.toNat ≤ 90 then some (c.toNat - 55)
  else none

/-- Python `int(s, base)` restricted to the shapes this program feeds it:
surrounding whitespace is stripped, then every remaining character must be a
digit of the base.  (A sign, a base marker such as `0x`, and underscores are
also accepted by Python; no fragment produced by splitting on the token
regexes contains those, so they are not modelled.)  `none` embeds a raised
`ValueError`. -/
def pyInt (base : Nat) (s : List Char) : Option Nat :=
  let t := pyStrip s
  if t.isEmpty then none
  else
    t.foldlM
      (fun acc c =>
        (digitVal c).bind (fun d => if d < base then some (acc * base + d) else none))
      0

/-- Decimal digits of `n`, most significant first, as produced by the
`%d` format specifier in `colorize`.  Fuel-driven; `n + 1` fuel suffices. -/
def decDigitsCore : Nat → Nat → List Char → List Char
  | 0, _, acc => acc
  | fuel + 1, n, acc =>
    let d := Char.ofNat (48 + n % 10)
    if n < 10 then d :: acc else decDigitsCore fuel (n / 10) (d :: acc)

/-- Decimal rendering of a natural number. -/
def decDigits (n : Nat) : List Char :=
  decDigitsCore (n + 1) n []

/-- Function `colorize(s, vt100_index)`: `"\033[38;5;%dm%s\033[0m" % (vt100_index, s)`. -/
def colorize (s : List Char) (vt100_index : Nat) : List Char :=
  [esc, '[', '3', '8', ';', '5', ';'] ++ decDigits vt100_index ++ ['m'] ++ s ++
    [esc, '[', '0', 'm']

/-- The split by the capturing two-hex-digit regex of `regex_hex`: scan left to right; wherever two
consecutive characters are hex digits, emit the accumulated separator text and
the two-character token; otherwise move one character into the separator
accumulator.  The trailing (possibly empty) separator is emitted at the end. -/
def splitHex (acc : List Char) : List Char → List (List Char)
  | c1 :: c2 :: rest =>
    if isHexDigit c1 && isHexDigit c2 then
      acc.reverse :: [c1, c2] :: splitHex [] rest
    else
      splitHex (c1 :: acc) (c2 :: rest)
  | rest => [acc.reverse ++ rest]

/-- The split by the capturing eight-binary-digit regex of `regex_bin`: same scan with eight-character binary tokens. -/
def splitBin (acc : List Char) : List Char → List (List Char)
  | c1 :: c2 :: c3 :: c4 :: c5 :: c6 :: c7 :: c8 :: rest =>
    if isBinDigit c1 && isBinDigit c2 && isBinDigit c3 && isBinDigit c4 &&
        isBinDigit c5 && isBinDigit c6 && isBinDigit c7 && isBinDigit c8 then
      acc.reverse :: [c1, c2, c3, c4, c5, c6, c7, c8] :: splitBin [] rest
    else
      splitBin (c1 :: acc) (c2 :: c3 :: c4 :: c5 :: c6 :: c7 :: c8 :: rest)
  | rest => [acc.reverse ++ rest]

/-- The body of `map_color` inside `XXDParser.parse`: an all-whitespace (or
empty) fragment passes through; otherwise the fragment is parsed in the
configured base, mapped through the palette, and wrapped by `colorize`
(`pixel_char` replaces the literal text when pixelate is on).  `none` embeds a
raised exception (`ValueError` from `int`, or a failed palette lookup). -/
def map_color (base : Nat) (pal : Nat → Option Nat) (pixelate : Bool)
    (byte : List Char) : Option (List Char) :=
  if (pyStrip byte).isEmpty then some byte
  else
    match pyInt base byte with
    | none => none
    | some n =>
      match pal n with
      | none => none
      | some idx => some (colorize (if pixelate then [pixel_char] else byte) idx)

/-- Method `XXDParser.parse(hex_data, pixelate)`: split on the configured token regex,
map `map_color` over the fragments, join. -/
def XXDParse (binary : Bool) (pal : Nat → Option Nat) (pixelate : Bool)
    (hex_data : List Char) : Option (List Char) :=
  ((if binary then splitBin [] hex_data else splitHex [] hex_data).mapM
    (map_color (if binary then 2 else 16) pal pixelate)).map List.flatten

/-- Holds when `sep` is a leading run of `s`. -/
def leadsWith : List Char → List Char → Bool
  | [], _ => true
  | _ :: _, [] => false
  | c :: cs, d :: ds => c = d && leadsWith cs ds

/-- Holds when `pat` occurs as a contiguous substring of `s`. -/
def occursIn (pat : List Char) : List Char → Bool
  | [] => leadsWith pat []
  | c :: rest => leadsWith pat (c :: rest) || occursIn pat rest

/-- Python `s.split(sep, 1)` followed by a two-name unpacking: split at the
first occurrence of `sep`; `none` embeds the `ValueError` raised by the
unpacking when `sep` does not occur. -/
def splitOnce (sep : List Char) : List Char → Option (List Char × List Char)
  | [] => if leadsWith sep [] then some ([], []) else none
  | c :: rest =>
    if leadsWith sep (c :: rest) then some ([], List.drop sep.length (c :: rest))
    else (splitOnce sep rest).map (fun p => (c :: p.1, p.2))

/-- Function `format_line(line, colorizer)`: pass the elision marker through verbatim;
otherwise split off the address at the first `": "`, split the remainder at
the first `"  "`, colorize the hex field, and reassemble with the text field's
final character removed (`ascii_data[:-1]`).  `none` embeds a raised
exception. -/
def format_line (line : List Char) (colorizer : List Char → Option (List Char)) :
    Option (List Char) :=
  if line = elision then some line
  else
    match splitOnce address_separator line with
    | none => none
    | some (address, hex_ascii) =>
      match splitOnce hex_separator hex_ascii with
      | none => none
      | some (hex_data, ascii_data) =>
        match colorizer hex_data with
        | none => none
        | some colored =>
          some (address ++ address_separator ++ colored ++ hex_separator ++
            ascii_data.dropLast)

/-- Table `GradientPalette.base_palette`: the 31-entry color ramp. -/
def base_palette : List Nat :=
  [131, 167, 203, 209, 173, 137, 179, 221, 227, 191, 149, 120, 78, 79, 116,
    117, 74, 75, 68, 105, 62, 98, 97, 134, 176, 207, 164, 163, 126, 132, 168]

/-- Operation `collections.deque.rotate(k)` on a list: the element at old index
`(i - k) mod n` moves to index `i`. -/
def dequeRotate (l : List Nat) (k : Int) : List Nat :=
  (List.range l.length).map
    (fun (i : Nat) => l.getD (((i : Int) - k) % (l.length : Int)).toNat 0)

/-- Method `GradientPalette.rotate(num)`: a deep copy of `base_palette` rotated by
`-num`, i.e. rotated left by `num`. -/
def rotate (num : Int) : List Nat :=
  dequeRotate base_palette (-num)

/-- Method `GradientPalette.color_picker(byte)`: byte 0 maps to the reserved
`null_color`; otherwise index `int(len(palette) * byte / 256.0)` is looked up
in the rotated table.  For `byte ≤ 255` the float expression is exact (the
product is below 2^53 and 256 is a power of two), so truncating float division
coincides with natural division.  `none` embeds an `IndexError` from an
out-of-range lookup. -/
def color_picker (palette : List Nat) (byte : Nat) : Option Nat :=
  if byte = 0 then some null_color
  else palette.get? (palette.length * byte / 256)

/-- Strip VT100 color sequences: drop every run starting at an escape
character up to and including the next `m`. -/
def stripAnsiAux : Bool → List Char → List Char
  | _, [] => []
  | false, c :: rest =>
    if c = esc then stripAnsiAux true rest else c :: stripAnsiAux false rest
  | true, c :: rest =>
    if c = 'm' then stripAnsiAux false rest else stripAnsiAux true rest

/-- Strip VT100 color sequences from a string containing only complete ones. -/
def stripAnsi (s : List Char) : List Char :=
  stripAnsiAux false s

/-- A hex-field fragment is benign: either pure whitespace (passed through by
`map_color`) or free of escape characters and parsing, in base 16, to a byte
value at most 255. -/
def fragOK (f : List Char) : Bool :=
  (pyStrip f).isEmpty ||
    (!(decide (esc ∈ f)) && decide ((pyInt 16 f).getD 256 ≤ 255))

/-- The documented grammar of a hex field: two-hex-digit tokens, possibly
grouped (adjacent), separated by single spaces, with optional leading and
trailing spaces. -/
def hexGrammar : List Char → Bool
  | [] => true
  | c :: rest =>
    if c = ' ' then hexGrammar rest
    else
      match rest with
      | [] => false
      | c2 :: rest2 => isHexDigit c && isHexDigit c2 && hexGrammar rest2

/-- The classes defined by the source, for modelling the runtime check of
two-argument `super`. -/
inductive PyClass
  | xxdParser
  | gradientPalette
  | asciiPalette
deriving DecidableEq

/-- Python exception kinds raised by the modelled constructor code. -/
inductive PyError
  | typeError
  | valueError
deriving DecidableEq

/-- Holds when `a` is `b` or a subclass of `b`, per the source hierarchy: both
`GradientPalette` and `AsciiPalette` extend only `XXDParser`. -/
def isSubclass : PyClass → PyClass → Bool
  | PyClass.xxdParser, PyClass.xxdParser => true
  | PyClass.gradientPalette, PyClass.gradientPalette => true
  | PyClass.asciiPalette, PyClass.asciiPalette => true
  | PyClass.gradientPalette, PyClass.xxdParser => true
  | PyClass.asciiPalette, PyClass.xxdParser => true
  | _, _ => false

/-- CPython's check for `super(t, obj)`: `type(obj)` must be `t` or a subclass
of `t`, otherwise `TypeError` is raised. -/
def superCheck (t : PyClass) (selfCls : PyClass) : Except PyError Unit :=
  if isSubclass selfCls t then Except.ok () else Except.error PyError.typeError

/-- The state a palette constructor builds: the numeral base from
`XXDParser.__init__` and the rotated color table. -/
structure PaletteState where
  base : Nat
  palette : List Nat
deriving DecidableEq

/-- Constructor `GradientPalette.__init__(binary, rotate_index)`:
`super(GradientPalette, self)` with `self` a `GradientPalette` instance
succeeds, then the rotated palette is stored. -/
def GradientPalette_init (binary : Bool) (rotate_index : Int) :
    Except PyError PaletteState :=
  match superCheck PyClass.gradientPalette PyClass.gradientPalette with
  | Except.error e => Except.error e
  | Except.ok _ =>
    Except.ok (PaletteState.mk (if binary then 2 else 16) (rotate rotate_index))

/-- Constructor `AsciiPalette.__init__(binary, rotate_index)`: the source writes
`super(GradientPalette, self)` while `self` is an `AsciiPalette` instance,
which is not an instance of `GradientPalette`. -/
def AsciiPalette_init (binary : Bool) (rotate_index : Int) :
    Except PyError PaletteState :=
  match superCheck PyClass.gradientPalette PyClass.asciiPalette with
  | Except.error e => Except.error e
  | Except.ok _ =>
    Except.ok (PaletteState.mk (if binary then 2 else 16) (rotate rotate_index))

/-- A concrete well-formed record line `"0: 41  A\n"` used by the witnesses. -/
def demoLine : List Char := ['0', ':', ' ', '4', '1', ' ', ' ', 'A', '\n']

/-! Losslessness of the tokenizer. -/

theorem splitHex_flatten : ∀ (s acc : List Char),
    (splitHex acc s).flatten = acc.reverse ++ s
  | [], acc => by simp [splitHex]
  | [c], acc => by simp [splitHex]
  | c1 :: c2 :: rest, acc => by
    by_cases h : (isHexDigit c1 && isHexDigit c2) = true
    · simp [splitHex, h, splitHex_flatten rest []]
    · have ih := splitHex_flatten (c2 :: rest) (c1 :: acc)
      simp [splitHex, h, ih, List.append_assoc]

theorem splitBin_flatten : ∀ (s acc : List Char),
    (splitBin acc s).flatten = acc.reverse ++ s
  | [], acc => by simp [splitBin]
  | [c1], acc => by simp [splitBin]
  | [c1, c2], acc => by simp [splitBin]
  | [c1, c2, c3], acc => by simp [splitBin]
  | [c1, c2, c3, c4], acc => by simp [splitBin]
  | [c1, c2, c3, c4, c5], acc => by simp [splitBin]
  | [c1, c2, c3, c4, c5, c6], acc => by simp [splitBin]
  | [c1, c2, c3, c4, c5, c6, c7], acc => by simp [splitBin]
  | c1 :: c2 :: c3 :: c4 :: c5 :: c6 :: c7 :: c8 :: rest, acc => by
    by_cases h : (isBinDigit c1 && isBinDigit c2 && isBinDigit c3 &&
        isBinDigit c4 && isBinDigit c5 && isBinDigit c6 && isBinDigit c7 &&
        isBinDigit c8) = true
    · simp [splitBin, h, splitBin_flatten rest []]
    · have ih := splitBin_flatten (c2 :: c3 :: c4 :: c5 :: c6 :: c7 :: c8 :: rest)
        (c1 :: acc)
      simp [splitBin, h, ih, List.append_assoc]

/-- C2: for every input string, splitting on the capturing two-hex-digit
regex, or on the capturing eight-binary-digit regex, yields fragments whose
in-order concatenation is exactly the input string. -/
theorem tokenizer_lossless (s : List Char) :
    (splitHex [] s).flatten = s ∧ (splitBin [] s).flatten = s := by
  constructor
  · simpa using splitHex_flatten s []
  · simpa using splitBin_flatten s []

/-! The gradient palette. -/

theorem base_palette_length : base_palette.length = 31 := rfl

theorem base_palette_length_int : (base_palette.length : Int) = 31 := by
  norm_num [base_palette_length]

theorem rotate_length (num : Int) : (rotate num).length = 31 := by
  simp only [rotate, dequeRotate, List.length_map, List.length_range,
    base_palette_length]

theorem mem_rotate (num : Int) (x : Nat) (hx : x ∈ rotate num) :
    x ∈ base_palette := by
  simp only [rotate, dequeRotate, base_palette_length_int] at hx
  rw [List.mem_map] at hx
  obtain ⟨i, _, hx⟩ := hx
  have h1 : 0 ≤ ((i : Int) - -num) % 31 := Int.emod_nonneg _ (by norm_num)
  have h2 : ((i : Int) - -num) % 31 < 31 := Int.emod_lt_of_pos _ (by norm_num)
  have hj : (((i : Int) - -num) % 31).toNat < base_palette.length := by
    rw [base_palette_length]; omega
  rw [← hx, List.getD_eq_getElem?_getD, List.getElem?_eq_getElem hj]
  exact List.getElem_mem hj

theorem base_palette_ne : ∀ x ∈ base_palette, x ≠ 59 := by decide

theorem rotate_add_period (r k : Int) : rotate (r + 31 * k) = rotate r := by
  simp only [rotate, dequeRotate, base_palette_length_int]
  refine List.map_congr_left (fun i _ => ?_)
  have he : (((i : Int) - -(r + 31 * k)) % 31).toNat =
      (((i : Int) - -r) % 31).toNat := by omega
  rw [he]

/-- For a byte value at most 255, the gradient lookup succeeds. -/
theorem color_picker_isSome (r : Int) (b : Nat) (hb : b ≤ 255) :
    ∃ idx, color_picker (rotate r) b = some idx := by
  by_cases h0 : b = 0
  · exact ⟨null_color, by rw [h0]; rfl⟩
  · have hlt : (rotate r).length * b / 256 < (rotate r).length := by
      rw [rotate_length]; omega
    refine ⟨(rotate r).getD ((rotate r).length * b / 256) 0, ?_⟩
    rw [color_picker, if_neg h0, List.get?_eq_getElem?,
      List.getElem?_eq_getElem hlt, List.getD_eq_getElem?_getD,
      List.getElem?_eq_getElem hlt]
    rfl

/-- C4: for every rotation, `color_picker 0` returns the reserved null index
59, and 59 is distinct from every entry of the 31-entry rotated ramp, hence
from `color_picker b` for every byte value in (0, 255]. -/
theorem gradient_zero_reserved (r : Int) :
    color_picker (rotate r) 0 = some 59 ∧
    (∀ x ∈ rotate r, x ≠ 59) ∧
    (∀ b : Nat, 0 < b → b ≤ 255 → color_picker (rotate r) b ≠ some 59) := by
  refine ⟨rfl, fun x hx => base_palette_ne x (mem_rotate r x hx), ?_⟩
  intro b hb0 _ hc
  rw [color_picker, if_neg (Nat.pos_iff_ne_zero.mp hb0)] at hc
  exact base_palette_ne 59 (mem_rotate r 59 (List.get?_mem hc)) rfl

/-- Witness for C4 at rotation 5 and byte 255. -/
theorem gradient_zero_reserved_app :
    (0 < 255 ∧ 255 ≤ 255) ∧ color_picker (rotate 5) 255 ≠ some 59 :=
  ⟨by omega, (gradient_zero_reserved 5).2.2 255 (by omega) (by omega)⟩

/-- C5: for every rotation and byte value in (0, 255], the table has 31
entries, the computed index `31 * b / 256` lies below 31 (so clamping to
[0, 30] is the identity and the lookup never fails), and `color_picker`
returns exactly the rotated-table entry at that index. -/
theorem gradient_index_in_range (r : Int) (b : Nat) (hb0 : 0 < b)
    (hb : b ≤ 255) :
    (rotate r).length = 31 ∧ 31 * b / 256 < 31 ∧
    color_picker (rotate r) b =
      some ((rotate r).getD (min (31 * b / 256) 30) 0) := by
  have hlen : (rotate r).length = 31 := rotate_length r
  have hidx : 31 * b / 256 < 31 := by omega
  have hmin : min (31 * b / 256) 30 = 31 * b / 256 := by omega
  have hlt : 31 * b / 256 < (rotate r).length := by omega
  refine ⟨hlen, hidx, ?_⟩
  rw [hmin, color_picker, if_neg (Nat.pos_iff_ne_zero.mp hb0), hlen,
    List.get?_eq_getElem?, List.getElem?_eq_getElem hlt,
    List.getD_eq_getElem?_getD, List.getElem?_eq_getElem hlt]
  rfl

/-- Witness for C5 at rotation 0 and byte 128. -/
theorem gradient_index_in_range_app :
    (0 < 128 ∧ 128 ≤ 255) ∧
    ((rotate 0).length = 31 ∧ 31 * 128 / 256 < 31 ∧
      color_picker (rotate 0) 128 =
        some ((rotate 0).getD (min (31 * 128 / 256) 30) 0)) :=
  ⟨by omega, gradient_index_in_range 0 128 (by omega) (by omega)⟩

/-- C6: rotation is circular — shifting the rotation by any multiple of the
table length 31 leaves `color_picker` unchanged on every byte value. -/
theorem gradient_rotation_periodic (r k : Int) (b : Nat) (_hb : b ≤ 255) :
    color_picker (rotate r) b = color_picker (rotate (r + 31 * k)) b := by
  rw [rotate_add_period]

/-- Witness for C6 at rotation 1, multiple 2, byte 10. -/
theorem gradient_rotation_periodic_app :
    (10 ≤ 255) ∧ color_picker (rotate 1) 10 = color_picker (rotate (1 + 31 * 2)) 10 :=
  ⟨by omega, gradient_rotation_periodic 1 2 10 (by omega)⟩

/-- C7: the elision-marker line `"*\n"` is returned unchanged by `format_line`
for every colorizer (hence for every palette and pixelate configuration);
no tokenization or colorizing is applied to it. -/
theorem elision_passthrough (colorizer : List Char → Option (List Char)) :
    format_line elision colorizer = some elision := rfl

/-! Splitting at the first separator occurrence. -/

theorem leadsWith_eq : ∀ (sep s : List Char), leadsWith sep s = true →
    s = sep ++ s.drop sep.length
  | [], s, _ => by simp
  | c :: cs, [], h => by simp [leadsWith] at h
  | c :: cs, d :: ds, h => by
    simp only [leadsWith, Bool.and_eq_true, decide_eq_true_eq] at h
    obtain ⟨hcd, h⟩ := h
    subst hcd
    have ih := leadsWith_eq cs ds h
    simp only [List.cons_append, List.length_cons, List.drop_succ_cons]
    exact congrArg (c :: ·) ih

theorem splitOnce_eq_some : ∀ (sep s a b : List Char),
    splitOnce sep s = some (a, b) → s = a ++ sep ++ b
  | sep, [], a, b, h => by
    simp only [splitOnce] at h
    by_cases hl : leadsWith sep [] = true
    · rw [if_pos hl] at h
      have hsep := leadsWith_eq sep [] hl
      simp only [List.drop_nil] at hsep
      obtain ⟨ha, hb⟩ := Prod.mk.injEq .. ▸ Option.some.inj h
      simp [← ha, ← hb, ← hsep]
    · rw [if_neg hl] at h
      exact absurd h (by simp)
  | sep, c :: rest, a, b, h => by
    simp only [splitOnce] at h
    by_cases hl : leadsWith sep (c :: rest) = true
    · rw [if_pos hl] at h
      obtain ⟨ha, hb⟩ := Prod.mk.injEq .. ▸ Option.some.inj h
      rw [← ha, ← hb, List.nil_append]
      exact leadsWith_eq sep (c :: rest) hl
    · rw [if_neg hl] at h
      rw [Option.map_eq_some'] at h
      obtain ⟨⟨a', b'⟩, hsp, hab⟩ := h
      obtain ⟨ha, hb⟩ := Prod.mk.injEq .. ▸ hab
      have ih := splitOnce_eq_some sep rest a' b' hsp
      rw [← ha, ← hb, List.cons_append, List.cons_append, ← ih]

theorem occursIn_eq_false_splitOnce : ∀ (sep s : List Char),
    occursIn sep s = false → splitOnce sep s = none
  | sep, [], h => by
    simp only [occursIn] at h
    simp [splitOnce, h]
  | sep, c :: rest, h => by
    simp only [occursIn, Bool.or_eq_false_iff] at h
    obtain ⟨h1, h2⟩ := h
    simp [splitOnce, h1, occursIn_eq_false_splitOnce sep rest h2]

/-- C3: a non-elision line in which `": "` never occurs — or in which `": "`
occurs but no `"  "` occurs after the first `": "` — makes `format_line`
raise (the embedded `none`), for every colorizer, rather than return a
string. -/
theorem format_line_malformed (line : List Char)
    (colorizer : List Char → Option (List Char))
    (hne : line ≠ elision)
    (h : occursIn address_separator line = false ∨
      ∃ a r, splitOnce address_separator line = some (a, r) ∧
        occursIn hex_separator r = false) :
    format_line line colorizer = none := by
  simp only [format_line, if_neg hne]
  rcases h with h | ⟨a, r, hs, h2⟩
  · simp [occursIn_eq_false_splitOnce _ _ h]
  · simp [hs, occursIn_eq_false_splitOnce _ _ h2]

/-- A concrete malformed line `"hi\n"` with no `": "` separator. -/
def demoBadLine : List Char := ['h', 'i', '\n']

/-- Witness for C3 on the malformed line `"hi\n"`. -/
theorem format_line_malformed_app :
    (demoBadLine ≠ elision ∧ occursIn address_separator demoBadLine = false) ∧
    format_line demoBadLine (fun s => some s) = none :=
  ⟨by decide, format_line_malformed demoBadLine (fun s => some s) (by decide)
    (Or.inl (by decide))⟩

/-- C8: constructing an `AsciiPalette` always raises `TypeError`, because its
`__init__` invokes `super(GradientPalette, self)` on an instance whose class,
`AsciiPalette`, is not a subclass of `GradientPalette`; so no `AsciiPalette`
instance is ever obtained. -/
theorem ascii_palette_init_type_error (binary : Bool) (rotate_index : Int) :
    AsciiPalette_init binary rotate_index = Except.error PyError.typeError := rfl

/-! Stripping the inserted color sequences. -/

theorem decDigitsCore_bound : ∀ (fuel n : Nat) (acc : List Char),
    (∀ c ∈ acc, 48 ≤ c.toNat ∧ c.toNat ≤ 57) →
    ∀ c ∈ decDigitsCore fuel n acc, 48 ≤ c.toNat ∧ c.toNat ≤ 57
  | 0, _, _, hacc => by simpa [decDigitsCore] using hacc
  | fuel + 1, n, acc, hacc => by
    have hd : 48 ≤ (Char.ofNat (48 + n % 10)).toNat ∧
        (Char.ofNat (48 + n % 10)).toNat ≤ 57 := by
      have h9 : n % 10 = 0 ∨ n % 10 = 1 ∨ n % 10 = 2 ∨ n % 10 = 3 ∨
          n % 10 = 4 ∨ n % 10 = 5 ∨ n % 10 = 6 ∨ n % 10 = 7 ∨
          n % 10 = 8 ∨ n % 10 = 9 := by omega
      rcases h9 with h | h | h | h | h | h | h | h | h | h <;> rw [h] <;> decide
    have hcons : ∀ c ∈ Char.ofNat (48 + n % 10) :: acc,
        48 ≤ c.toNat ∧ c.toNat ≤ 57 := by
      intro c hc
      rcases List.mem_cons.mp hc with hc | hc
      · exact hc ▸ hd
      · exact hacc c hc
    simp only [decDigitsCore]
    by_cases hn : n < 10
    · rw [if_pos hn]
      exact hcons
    · rw [if_neg hn]
      exact decDigitsCore_bound fuel (n / 10) _ hcons

theorem decDigits_bound (n : Nat) :
    ∀ c ∈ decDigits n, 48 ≤ c.toNat ∧ c.toNat ≤ 57 :=
  decDigitsCore_bound (n + 1) n [] (by simp)

theorem decDigits_ne_m (n : Nat) : ∀ c ∈ decDigits n, ¬ (c = 'm') := by
  intro c hc he
  have hb := decDigits_bound n c hc
  rw [he] at hb
  revert hb
  decide

theorem stripAnsiAux_esc (s : List Char) :
    stripAnsiAux false (esc :: s) = stripAnsiAux true s := by
  simp [stripAnsiAux]

theorem stripAnsiAux_false_append (a : List Char) (h : esc ∉ a)
    (b : List Char) :
    stripAnsiAux false (a ++ b) = a ++ stripAnsiAux false b := by
  induction a with
  | nil => rfl
  | cons c a ih =>
    rw [List.mem_cons] at h
    push_neg at h
    have hc : ¬ (c = esc) := fun he => h.1 he.symm
    simp [stripAnsiAux, hc, ih h.2]

theorem stripAnsiAux_false_of_noesc (a : List Char) (h : esc ∉ a) :
    stripAnsiAux false a = a := by
  have := stripAnsiAux_false_append a h []
  simpa [stripAnsiAux] using this

theorem stripAnsiAux_true_append (a : List Char) (h : 'm' ∉ a)
    (b : List Char) :
    stripAnsiAux true (a ++ 'm' :: b) = stripAnsiAux false b := by
  induction a with
  | nil => simp [stripAnsiAux]
  | cons c a ih =>
    rw [List.mem_cons] at h
    push_neg at h
    have hc : ¬ (c = 'm') := fun he => h.1 he.symm
    simp [stripAnsiAux, hc, ih h.2]

theorem stripAnsiAux_colorize (s : List Char) (idx : Nat) (hs : esc ∉ s)
    (b : List Char) :
    stripAnsiAux false (colorize s idx ++ b) = s ++ stripAnsiAux false b := by
  have hm : 'm' ∉ ['[', '3', '8', ';', '5', ';'] ++ decDigits idx := by
    intro hmem
    rcases List.mem_append.mp hmem with h | h
    · revert h; decide
    · exact decDigits_ne_m idx 'm' h rfl
  have e1 : colorize s idx ++ b =
      esc :: ((['[', '3', '8', ';', '5', ';'] ++ decDigits idx) ++ 'm' ::
        (s ++ (esc :: '[' :: '0' :: 'm' :: b))) := by
    simp [colorize, List.append_assoc]
  rw [e1, stripAnsiAux_esc, stripAnsiAux_true_append _ hm,
    stripAnsiAux_false_append s hs, stripAnsiAux_esc]
  have e2 : ('[' :: '0' :: 'm' :: b) = ['[', '0'] ++ 'm' :: b := rfl
  rw [e2, stripAnsiAux_true_append _ (by decide)]

/-! Whitespace fragments. -/

theorem all_ws_of_pyStrip_empty : ∀ (f : List Char),
    (pyStrip f).isEmpty = true → ∀ c ∈ f, isPyWs c = true
  | [], _, c, hc => absurd hc (List.not_mem_nil c)
  | d :: rest, h, c, hc => by
    by_cases hd : isPyWs d = true
    · have hps : pyStrip (d :: rest) = pyStrip rest := by
        simp [pyStrip, List.dropWhile_cons, hd]
      rw [hps] at h
      rcases List.mem_cons.mp hc with hc | hc
      · exact hc ▸ hd
      · exact all_ws_of_pyStrip_empty rest h c hc
    · exfalso
      have hps : pyStrip (d :: rest) =
          ((d :: rest).reverse.dropWhile isPyWs).reverse := by
        simp [pyStrip, List.dropWhile_cons, hd]
      rw [hps, List.isEmpty_iff, List.reverse_eq_nil_iff,
        List.dropWhile_eq_nil_iff] at h
      exact hd (h d (by simp))

theorem noesc_of_all_ws (f : List Char) (h : ∀ c ∈ f, isPyWs c = true) :
    esc ∉ f :=
  fun he => absurd (h esc he) (by decide)

/-! Colorizing one fragment, and a whole fragment list. -/

theorem map_color_gradient_strip (r : Int) (f : List Char)
    (hf : fragOK f = true) :
    ∃ g, map_color 16 (color_picker (rotate r)) false f = some g ∧
      ∀ b, stripAnsiAux false (g ++ b) = f ++ stripAnsiAux false b := by
  by_cases hws : (pyStrip f).isEmpty = true
  · refine ⟨f, by simp [map_color, hws], fun b => ?_⟩
    exact stripAnsiAux_false_append f
      (noesc_of_all_ws f (all_ws_of_pyStrip_empty f hws)) b
  · rw [fragOK, Bool.or_eq_true] at hf
    rcases hf with hf | hf
    · exact absurd hf hws
    · rw [Bool.and_eq_true] at hf
      have hesc : esc ∉ f := by
        have := hf.1
        rw [Bool.not_eq_true'] at this
        exact of_decide_eq_false this
      have hle : (pyInt 16 f).getD 256 ≤ 255 := of_decide_eq_true hf.2
      obtain ⟨v, hv⟩ : ∃ v, pyInt 16 f = some v := by
        cases hpi : pyInt 16 f with
        | none => rw [hpi] at hle; norm_num at hle
        | some v => exact ⟨v, rfl⟩
      have hv255 : v ≤ 255 := by rw [hv] at hle; simpa using hle
      obtain ⟨idx, hidx⟩ := color_picker_isSome r v hv255
      refine ⟨colorize f idx, ?_, fun b => stripAnsiAux_colorize f idx hesc b⟩
      simp [map_color, hws, hv, hidx]

theorem mapM_gradient_strip (r : Int) : ∀ (frags : List (List Char)),
    (∀ f ∈ frags, fragOK f = true) →
    ∃ gs, frags.mapM (map_color 16 (color_picker (rotate r)) false) =
        some gs ∧
      ∀ b, stripAnsiAux false (gs.flatten ++ b) =
        frags.flatten ++ stripAnsiAux false b
  | [], _ => ⟨[], rfl, fun b => by simp⟩
  | f :: frags, h => by
    obtain ⟨g, hg, hgs⟩ := map_color_gradient_strip r f (h f (by simp))
    obtain ⟨gs, hrec, hstr⟩ :=
      mapM_gradient_strip r frags (fun x hx => h x (by simp [hx]))
    refine ⟨g :: gs, ?_, fun b => ?_⟩
    · rw [List.mapM_cons, hg, hrec]
      rfl
    · rw [List.flatten_cons, List.flatten_cons, List.append_assoc, hgs, hstr,
        ← List.append_assoc]

/-- C10 (and part of C1's correction): `format_line` is not uniformly
line-terminated — the elision marker is returned with its trailing newline,
while a record line is returned with the final character of its text field
(the newline) removed, so a caller printing one newline per returned line
emits an extra blank line after each elision marker. -/
theorem format_line_termination_asymmetry
    (colorizer : List Char → Option (List Char)) :
    (format_line elision colorizer = some elision ∧
      elision.getLast? = some '\n') ∧
    ∀ (line addr rest hexF textF colored : List Char),
      line ≠ elision →
      splitOnce address_separator line = some (addr, rest) →
      splitOnce hex_separator rest = some (hexF, textF) →
      colorizer hexF = some colored →
      format_line line colorizer =
        some (addr ++ address_separator ++ colored ++ hex_separator ++
          textF.dropLast) := by
  refine ⟨⟨rfl, rfl⟩, ?_⟩
  intro line addr rest hexF textF colored hne h1 h2 hc
  simp [format_line, hne, h1, h2, hc]

/-- Witness for C10 on the record line `"0: 41  A\n"` with the identity
colorizer: the trailing newline of the text field is removed. -/
theorem format_line_termination_asymmetry_app :
    (demoLine ≠ elision ∧
      splitOnce address_separator demoLine =
        some (['0'], ['4', '1', ' ', ' ', 'A', '\n']) ∧
      splitOnce hex_separator ['4', '1', ' ', ' ', 'A', '\n'] =
        some (['4', '1'], ['A', '\n'])) ∧
    format_line demoLine (fun s => some s) =
      some (['0'] ++ address_separator ++ ['4', '1'] ++ hex_separator ++
        (['A', '\n'] : List Char).dropLast) :=
  ⟨by decide,
    (format_line_termination_asymmetry (fun s => some s)).2 demoLine ['0']
      ['4', '1', ' ', ' ', 'A', '\n'] ['4', '1'] ['A', '\n'] ['4', '1']
      (by decide) (by decide) (by decide) rfl⟩

/-- C1 (amended): for a well-formed record line — one the two separators
split, whose hex-field fragments are whitespace or parse to byte values,
containing no raw escape byte, with a nonempty text field — `format_line`
with the gradient colorizer (pixelate off) returns the line with the address
column and the separators byte-identical, the text field byte-identical save
its removed final character, and stripping the inserted color sequences
yields the input line with its final character (the line terminator)
removed. -/
theorem format_line_column_preservation (r : Int)
    (line addr rest hexF textF : List Char)
    (hne : line ≠ elision)
    (h1 : splitOnce address_separator line = some (addr, rest))
    (h2 : splitOnce hex_separator rest = some (hexF, textF))
    (hfr : ∀ f ∈ splitHex [] hexF, fragOK f = true)
    (hesc : esc ∉ line)
    (hTF : textF ≠ []) :
    ∃ colored,
      format_line line (XXDParse false (color_picker (rotate r)) false) =
        some (addr ++ address_separator ++ colored ++ hex_separator ++
          textF.dropLast) ∧
      stripAnsi (addr ++ address_separator ++ colored ++ hex_separator ++
        textF.dropLast) = line.dropLast := by
  obtain ⟨gs, hmm, hstr⟩ := mapM_gradient_strip r (splitHex [] hexF) hfr
  have hparse : XXDParse false (color_picker (rotate r)) false hexF =
      some gs.flatten := by
    show ((splitHex [] hexF).mapM
        (map_color 16 (color_picker (rotate r)) false)).map List.flatten =
      some gs.flatten
    rw [hmm]
    rfl
  have hline : line = addr ++ address_separator ++ rest :=
    splitOnce_eq_some _ _ _ _ h1
  have hrest : rest = hexF ++ hex_separator ++ textF :=
    splitOnce_eq_some _ _ _ _ h2
  have hesc_addr : esc ∉ addr := fun hm => hesc (by rw [hline]; simp [hm])
  have hesc_text : esc ∉ textF.dropLast := fun hm => hesc (by
    rw [hline, hrest]
    simp [List.mem_of_mem_dropLast hm])
  have hflat : (splitHex [] hexF).flatten = hexF := by
    simpa using splitHex_flatten hexF []
  refine ⟨gs.flatten, ?_, ?_⟩
  · simp [format_line, hne, h1, h2, hparse]
  · have hassoc : addr ++ address_separator ++ gs.flatten ++ hex_separator ++
        textF.dropLast =
        addr ++ (address_separator ++ (gs.flatten ++ (hex_separator ++
          textF.dropLast))) := by
      simp [List.append_assoc]
    rw [stripAnsi, hassoc, stripAnsiAux_false_append addr hesc_addr,
      stripAnsiAux_false_append address_separator (by decide),
      hstr (hex_separator ++ textF.dropLast), hflat,
      stripAnsiAux_false_append hex_separator (by decide),
      stripAnsiAux_false_of_noesc _ hesc_text, hline, hrest]
    have h4 : address_separator ++ (hexF ++ (hex_separator ++ textF)) ≠ [] := by
      simp [address_separator]
    have h3 : hexF ++ (hex_separator ++ textF) ≠ [] := by
      simp [hex_separator]
    have h2s : hex_separator ++ textF ≠ [] := by
      simp [hex_separator]
    rw [List.append_assoc, List.append_assoc,
      List.dropLast_append_of_ne_nil _ h4,
      List.dropLast_append_of_ne_nil _ h3,
      List.dropLast_append_of_ne_nil _ h2s,
      List.dropLast_append_of_ne_nil _ hTF]

/-- C1 as frozen is false on the code: on the well-formed record line
`"0: 41  A\n"`, stripping the inserted color sequences from the
`format_line` output yields `"0: 41  A"`, not the input line — the trailing
newline is gone. -/
theorem format_line_strip_ne_input :
    (format_line demoLine (XXDParse false (color_picker (rotate 0))
      false)).map stripAnsi ≠ some demoLine := by
  decide

/-- Witness for the amended C1 on the record line `"0: 41  A\n"` with
rotation 0. -/
theorem format_line_column_preservation_app :
    (demoLine ≠ elision ∧ (∀ f ∈ splitHex [] ['4', '1'], fragOK f = true) ∧
      esc ∉ demoLine ∧ (['A', '\n'] : List Char) ≠ []) ∧
    ∃ colored,
      format_line demoLine (XXDParse false (color_picker (rotate 0)) false) =
        some (['0'] ++ address_separator ++ colored ++ hex_separator ++
          (['A', '\n'] : List Char).dropLast) ∧
      stripAnsi (['0'] ++ address_separator ++ colored ++ hex_separator ++
        (['A', '\n'] : List Char).dropLast) = demoLine.dropLast :=
  ⟨⟨by decide, by decide, by decide, by decide⟩,
    format_line_column_preservation 0 demoLine ['0']
      ['4', '1', ' ', ' ', 'A', '\n'] ['4', '1'] ['A', '\n'] (by decide)
      (by decide) (by decide) (by decide) (by decide) (by decide)⟩

/-! Totality of `parse` on the documented hex-field grammar. -/

theorem hexDigit_not_ws (c : Char) (h : isHexDigit c = true) :
    isPyWs c = false := by
  simp only [isHexDigit, Bool.or_eq_true, Bool.and_eq_true,
    decide_eq_true_eq] at h
  simp only [isPyWs, Bool.or_eq_false_iff, decide_eq_false_iff_not]
  omega

theorem hexDigit_digitVal (c : Char) (h : isHexDigit c = true) :
    ∃ d, digitVal c = some d ∧ d < 16 := by
  simp only [isHexDigit, Bool.or_eq_true, Bool.and_eq_true,
    decide_eq_true_eq] at h
  rcases h with (⟨h1, h2⟩ | ⟨h1, h2⟩) | ⟨h1, h2⟩
  · exact ⟨c.toNat - 55,
      by rw [digitVal, if_neg (by omega), if_neg (by omega), if_pos (by omega)],
      by omega⟩
  · exact ⟨c.toNat - 87,
      by rw [digitVal, if_neg (by omega), if_pos (by omega)], by omega⟩
  · exact ⟨c.toNat - 48, by rw [digitVal, if_pos (by omega)], by omega⟩

theorem pyStrip_token (c1 c2 : Char) (h1 : isHexDigit c1 = true)
    (h2 : isHexDigit c2 = true) : pyStrip [c1, c2] = [c1, c2] := by
  have hw1 : isPyWs c1 = false := hexDigit_not_ws c1 h1
  have hw2 : isPyWs c2 = false := hexDigit_not_ws c2 h2
  simp [pyStrip, List.dropWhile_cons, hw1, hw2]

theorem pyStrip_empty_of_all_ws (f : List Char)
    (h : ∀ c ∈ f, isPyWs c = true) : (pyStrip f).isEmpty = true := by
  have h1 : f.dropWhile isPyWs = [] := List.dropWhile_eq_nil_iff.mpr h
  simp [pyStrip, h1]

theorem pyInt_token (c1 c2 : Char) (h1 : isHexDigit c1 = true)
    (h2 : isHexDigit c2 = true) :
    ∃ v, pyInt 16 [c1, c2] = some v ∧ v ≤ 255 := by
  obtain ⟨d1, hd1, hd1lt⟩ := hexDigit_digitVal c1 h1
  obtain ⟨d2, hd2, hd2lt⟩ := hexDigit_digitVal c2 h2
  refine ⟨d1 * 16 + d2, ?_, by omega⟩
  simp [pyInt, pyStrip_token c1 c2 h1 h2, hd1, hd2, hd1lt, hd2lt]

theorem hexGrammar_frags : ∀ (s acc : List Char), hexGrammar s = true →
    (∀ c ∈ acc, c = ' ') →
    ∀ f ∈ splitHex acc s,
      (∀ c ∈ f, c = ' ') ∨
        ∃ c1 c2, f = [c1, c2] ∧ isHexDigit c1 = true ∧ isHexDigit c2 = true
  | [], acc, _, hacc, f, hf => by
    simp only [splitHex, List.append_nil, List.mem_singleton] at hf
    subst hf
    exact Or.inl (fun c hc => hacc c (List.mem_reverse.mp hc))
  | [c], acc, hg, hacc, f, hf => by
    by_cases hc : c = ' '
    · subst hc
      simp only [splitHex, List.mem_singleton] at hf
      subst hf
      refine Or.inl (fun d hd => ?_)
      rcases List.mem_append.mp hd with h | h
      · exact hacc d (List.mem_reverse.mp h)
      · simpa using h
    · exfalso
      simp [hexGrammar, hc] at hg
  | c1 :: c2 :: rest, acc, hg, hacc, f, hf => by
    by_cases hc : c1 = ' '
    · subst hc
      have hg2 : hexGrammar (c2 :: rest) = true := by
        simpa [hexGrammar] using hg
      have hsp : splitHex acc (' ' :: c2 :: rest) =
          splitHex (' ' :: acc) (c2 :: rest) := by
        simp [splitHex, show isHexDigit ' ' = false from rfl]
      rw [hsp] at hf
      refine hexGrammar_frags (c2 :: rest) (' ' :: acc) hg2 ?_ f hf
      intro d hd
      rcases List.mem_cons.mp hd with h | h
      · exact h
      · exact hacc d h
    · have h3 : isHexDigit c1 = true ∧ isHexDigit c2 = true ∧
          hexGrammar rest = true := by
        simpa [hexGrammar, hc, Bool.and_eq_true, and_assoc] using hg
      obtain ⟨ha, hb, hrest⟩ := h3
      have hsp : splitHex acc (c1 :: c2 :: rest) =
          acc.reverse :: [c1, c2] :: splitHex [] rest := by
        simp [splitHex, ha, hb]
      rw [hsp] at hf
      rcases List.mem_cons.mp hf with h | h
      · subst h
        exact Or.inl (fun d hd => hacc d (List.mem_reverse.mp hd))
      · rcases List.mem_cons.mp h with h | h
        · subst h
          exact Or.inr ⟨c1, c2, rfl, ha, hb⟩
        · exact hexGrammar_frags rest [] hrest (by simp) f h

theorem map_color_gradient_isSome (r : Int) (pixelate : Bool) (f : List Char)
    (hf : (∀ c ∈ f, c = ' ') ∨
      ∃ c1 c2, f = [c1, c2] ∧ isHexDigit c1 = true ∧ isHexDigit c2 = true) :
    (map_color 16 (color_picker (rotate r)) pixelate f).isSome = true := by
  rcases hf with hws | ⟨c1, c2, hfe, h1, h2⟩
  · have hss : (pyStrip f).isEmpty = true :=
      pyStrip_empty_of_all_ws f (fun c hc => by rw [hws c hc]; decide)
    simp [map_color, hss]
  · subst hfe
    obtain ⟨v, hv, hv255⟩ := pyInt_token c1 c2 h1 h2
    have hne : ¬ (pyStrip [c1, c2]).isEmpty = true := by
      rw [pyStrip_token c1 c2 h1 h2]
      simp
    obtain ⟨idx, hidx⟩ := color_picker_isSome r v hv255
    simp [map_color, hne, hv, hidx]

theorem mapM_isSome {α β : Type} (g : α → Option β) : ∀ (l : List α),
    (∀ a ∈ l, (g a).isSome = true) → (l.mapM g).isSome = true
  | [], _ => rfl
  | a :: l, h => by
    obtain ⟨b, hb⟩ := Option.isSome_iff_exists.mp (h a (by simp))
    obtain ⟨bs, hbs⟩ := Option.isSome_iff_exists.mp
      (mapM_isSome g l (fun x hx => h x (by simp [hx])))
    rw [List.mapM_cons, hb, hbs]
    rfl

/-- C9: on every hex field drawn from the documented grammar (two-hex-digit
tokens, possibly grouped, single-space separated, optional surrounding
spaces), every tokenizer fragment that is nonempty after stripping whitespace
parses as a base-16 numeral — `int(fragment, 16)` never raises — and `parse`
returns a string (is total), for every rotation and pixelate setting. -/
theorem parse_total_on_grammar (r : Int) (pixelate : Bool) (hexF : List Char)
    (hg : hexGrammar hexF = true) :
    (∀ f ∈ splitHex [] hexF, ¬ (pyStrip f).isEmpty = true →
      (pyInt 16 f).isSome = true) ∧
    (XXDParse false (color_picker (rotate r)) pixelate hexF).isSome = true := by
  have hfr := hexGrammar_frags hexF [] hg (by simp)
  constructor
  · intro f hf hne
    rcases hfr f hf with hws | ⟨c1, c2, hfe, h1, h2⟩
    · exact absurd
        (pyStrip_empty_of_all_ws f (fun c hc => by rw [hws c hc]; decide)) hne
    · subst hfe
      obtain ⟨v, hv, _⟩ := pyInt_token c1 c2 h1 h2
      simp [hv]
  · have hsome : ((splitHex [] hexF).mapM
        (map_color 16 (color_picker (rotate r)) pixelate)).isSome = true :=
      mapM_isSome _ _ (fun f hf => map_color_gradient_isSome r pixelate f (hfr f hf))
    obtain ⟨gs, hgs⟩ := Option.isSome_iff_exists.mp hsome
    show (((splitHex [] hexF).mapM
      (map_color 16 (color_picker (rotate r)) pixelate)).map
        List.flatten).isSome = true
    rw [hgs]
    rfl

/-- A concrete grammar-conforming hex field `" 4865 0a "`. -/
def demoHexField : List Char := [' ', '4', '8', '6', '5', ' ', '0', 'a', ' ']

/-- Witness for C9 on the hex field `" 4865 0a "` with rotation 0. -/
theorem parse_total_on_grammar_app :
    (hexGrammar demoHexField = true) ∧
    (XXDParse false (color_picker (rotate 0)) false demoHexField).isSome =
      true :=
  ⟨by decide, (parse_total_on_grammar 0 false demoHexField (by decide)).2⟩

end Cxxd
